import Mathlib

/-
Verification of the maestro admission-decision engine against its
specification.  The definitions below are a shallow embedding of the
TypeScript sources:

  - packages/core/src/utils/ttl-map.ts          (TTLMap)
  - packages/core/src/utils/forgetting-curve.ts (decayWeight, timeToWeight)
  - packages/core/src/components/main-routine.ts (createMainRoutine, admit,
    signalRetry, getRuntimeState)
  - packages/core/src/components/circuit-distributor.ts (select)
  - packages/core/src/strategies/types.ts        (checkEligibility)
  - packages/core/src/strategies/intent-based.ts (createIntentBasedStrategy)
  - packages/core/src/strategies/compose.ts      (composeStrategies)

Modelling conventions: JavaScript `Map` insertion-order semantics are given
by an association list with unique keys; `Date.now()` becomes an explicit
`now : Nat` parameter (epoch milliseconds); JS numbers used for pressure
and priority become exact rationals; fallible construction becomes
`Except`; a sub-routine closure produced by `factory.create(id)` is
represented by the destination id it captures (its observable behaviour is
`dispatcher(task, id)`).  Observability-event emission (`emitDecision`) has
no effect on decisions or stored state and is not modelled.  The source
function `admit` is embedded under the name `admitTask`.
-/

namespace Maestro

/-- Ephemeral per-task counters (types/runtime-state.ts, TaskRuntimeState). -/
structure TaskRuntimeState where
  spawnCount : Nat
  retryDepth : Nat
  lastAttemptAt : Nat
deriving Repr, DecidableEq

/-- Entry of the TTL map (ttl-map.ts, TTLEntry). -/
structure TTLEntry (V : Type) where
  value : V
  expiresAt : Nat
deriving Repr, DecidableEq

/-- Lookup in a JS `Map` modelled as an association list (first match). -/
def mapFind {K V : Type} [DecidableEq K] : List (K × V) → K → Option V
  | [], _ => none
  | (k, v) :: rest, key => if k = key then some v else mapFind rest key

/-- JS `Map.prototype.set`: replace in place when the key is present,
append at the end otherwise (insertion order is preserved). -/
def mapSet {K V : Type} [DecidableEq K] : List (K × V) → K → V → List (K × V)
  | [], key, val => [(key, val)]
  | (k, v) :: rest, key, val =>
    if k = key then (k, val) :: rest else (k, v) :: mapSet rest key val

/-- JS `Map.prototype.delete`: remove the entry with the given key. -/
def mapDelete {K V : Type} [DecidableEq K] : List (K × V) → K → List (K × V)
  | [], _ => []
  | (k, v) :: rest, key => if k = key then rest else (k, v) :: mapDelete rest key

/-- JS `Map.prototype.has`. -/
def mapHas {K V : Type} [DecidableEq K] (store : List (K × V)) (key : K) : Bool :=
  (mapFind store key).isSome

/-- The TTLMap of ttl-map.ts: a bounded map whose entries carry an absolute
expiry timestamp. -/
structure TTLMap (K V : Type) where
  store : List (K × TTLEntry V)
  defaultTTL : Nat
  maxSize : Nat
deriving Repr

/-- A TTLMap as the constructor builds it. -/
def TTLMap.emptyMap (K V : Type) (defaultTTL maxSize : Nat) : TTLMap K V :=
  ⟨[], defaultTTL, maxSize⟩

/-- TTLMap.get: a hit on an expired entry lazily deletes it and reports
absence (ttl-map.ts lines 85 to 95).  The possibly updated map is returned
alongside the value. -/
def TTLMap.get {K V : Type} [DecidableEq K] (m : TTLMap K V) (now : Nat) (key : K) :
    Option V × TTLMap K V :=
  match mapFind m.store key with
  | none => (none, m)
  | some entry =>
    if now > entry.expiresAt then (none, { m with store := mapDelete m.store key })
    else (some entry.value, m)

/-- The running minimum of the evictOldest scan: the candidate key and the
smallest expiry seen so far (`oldestExpiry` starts at Infinity, modelled by
`none`; the comparison is strict, so the first entry achieving the minimum
wins). -/
def oldestScan {K V : Type} : List (K × TTLEntry V) → Option (K × Nat) → Option (K × Nat)
  | [], best => best
  | (k, e) :: rest, none => oldestScan rest (some (k, e.expiresAt))
  | (k, e) :: rest, some (bk, bexp) =>
    if e.expiresAt < bexp then oldestScan rest (some (k, e.expiresAt))
    else oldestScan rest (some (bk, bexp))

/-- TTLMap.evictOldest (ttl-map.ts lines 158 to 172): delete the entry with
the smallest expiry timestamp, if any. -/
def TTLMap.evictOldest {K V : Type} [DecidableEq K] (m : TTLMap K V) : TTLMap K V :=
  match oldestScan m.store none with
  | none => m
  | some (k, _) => { m with store := mapDelete m.store k }

/-- TTLMap.set (ttl-map.ts lines 100 to 110): evict the oldest entry when at
capacity and the key is new, then store the value with expiry
`now + (ttl ?? defaultTTL)`. -/
def TTLMap.set {K V : Type} [DecidableEq K] (m : TTLMap K V) (now : Nat) (key : K)
    (value : V) (ttl : Option Nat) : TTLMap K V :=
  let m1 :=
    if m.store.length ≥ m.maxSize ∧ ¬ mapHas m.store key then m.evictOldest else m
  { m1 with store := mapSet m1.store key ⟨value, now + ttl.getD m.defaultTTL⟩ }

/-- TTLMap.has (ttl-map.ts): observable result of `get(key) !== undefined`. -/
def TTLMap.hasLive {K V : Type} [DecidableEq K] (m : TTLMap K V) (now : Nat) (key : K) :
    Bool :=
  (m.get now key).1.isSome

/-- TTLMap.prune (ttl-map.ts lines 143 to 153): eagerly remove all expired
entries and return how many were removed. -/
def TTLMap.prune {K V : Type} (m : TTLMap K V) (now : Nat) : Nat × TTLMap K V :=
  let kept := m.store.filter fun p => decide (now ≤ p.2.expiresAt)
  (m.store.length - kept.length, { m with store := kept })

/-- TTLMap.delete. -/
def TTLMap.deleteKey {K V : Type} [DecidableEq K] (m : TTLMap K V) (key : K) : TTLMap K V :=
  { m with store := mapDelete m.store key }

/-- TTLMap.clear. -/
def TTLMap.clearAll {K V : Type} (m : TTLMap K V) : TTLMap K V :=
  { m with store := [] }

/-- The class invariant of a JS `Map`: keys are pairwise distinct. -/
def keysNodup {K V : Type} (l : List (K × V)) : Prop := (l.map Prod.fst).Nodup

/-- One call of the public TTLMap interface, for stating properties over
arbitrary operation sequences. -/
inductive TTLOp (K V : Type) where
  | get (now : Nat) (key : K)
  | set (now : Nat) (key : K) (value : V) (ttl : Option Nat)
  | delete (key : K)
  | clear
  | prune (now : Nat)

/-- Apply one TTLMap operation, keeping the store it leaves behind. -/
def applyOp {K V : Type} [DecidableEq K] (m : TTLMap K V) : TTLOp K V → TTLMap K V
  | .get now key => (m.get now key).2
  | .set now key value ttl => m.set now key value ttl
  | .delete key => m.deleteKey key
  | .clear => m.clearAll
  | .prune now => (m.prune now).2

/-- Apply a sequence of TTLMap operations in order. -/
def applyOps {K V : Type} [DecidableEq K] (m : TTLMap K V) : List (TTLOp K V) → TTLMap K V
  | [] => m
  | op :: rest => applyOps (applyOp m op) rest

/-- Drop reasons (types/decision.ts). -/
inductive DropReason where
  | spawn_budget_exhausted
  | retry_depth_exhausted
  | pressure_exceeded
deriving Repr, DecidableEq

/-- Admission verdict (types/decision.ts): a tagged union with one case per
variant. -/
inductive Decision where
  | dispatch
  | retry (currentDepth : Nat)
  | escalate (currentDepth : Nat)
  | drop (reason : DropReason) (currentDepth : Nat)
deriving Repr, DecidableEq

/-- Immutable task metadata (types/task.ts). -/
structure TaskMetadata where
  intent : Option String
  priority : Option ℚ
  spawnBudget : Nat
  maxRetryDepth : Nat
  createdAt : Nat
deriving Repr, DecidableEq

/-- Task (types/task.ts). -/
structure Task where
  id : String
  metadata : TaskMetadata
deriving Repr, DecidableEq

/-- Pressure snapshot (types/pressure.ts). -/
structure PressureSignal where
  memory : ℚ
  queueDepth : ℚ
  spawnSaturation : ℚ
  timestamp : Nat
deriving Repr, DecidableEq

/-- Static policy envelope (types/envelope.ts, DecisionEnvelope). -/
structure DecisionEnvelope where
  id : String
  allowDrop : Bool
  allowRetry : Bool
  allowCooperate : Bool
  allowHistoryInfluence : Bool
  eligibleCandidates : List String
deriving Repr, DecidableEq

/-- Selected destination group (types/subroutine.ts, SubRoutineGroup).  A
sub-routine built by `createSimpleFactory` is the closure
`dispatch(task) := dispatcher(task, id)`; it is embedded by the id it
captures. -/
structure SubRoutineGroup where
  primary : String
  cooperatives : List String
deriving Repr, DecidableEq

/-- Read-only selection context handed to strategies (strategies/types.ts,
StrategyContext).  The factory is not part of the embedding: creating a
sub-routine for id `i` is represented by `i` itself. -/
structure StrategyContext where
  task : Task
  envelope : DecisionEnvelope
  runtimeState : TaskRuntimeState
  pressure : PressureSignal
  eligibleCandidates : List String

/-- A spawn strategy is its select function (strategies/types.ts,
SpawnStrategy; the observability-only `name` field is not modelled). -/
def SpawnStrategy : Type := StrategyContext → Option SubRoutineGroup

/-- Budget eligibility check shared by all strategies (strategies/types.ts,
checkEligibility).  The reason string is kept as the source writes it. -/
structure EligibilityResult where
  eligible : Bool
  reason : Option String
deriving Repr, DecidableEq

/-- checkEligibility (strategies/types.ts). -/
def checkEligibility (task : Task) (runtimeState : TaskRuntimeState) : EligibilityResult :=
  if runtimeState.spawnCount ≥ task.metadata.spawnBudget then
    ⟨false, some "spawn_budget_exhausted"⟩
  else if runtimeState.retryDepth ≥ task.metadata.maxRetryDepth then
    ⟨false, some "retry_depth_exhausted"⟩
  else ⟨true, none⟩

/-- Configuration of the intent-based strategy (strategies/intent-based.ts). -/
structure IntentBasedConfig where
  intentMap : List (String × String)
  defaultSubRoutineId : Option String

/-- createIntentBasedStrategy (strategies/intent-based.ts): resolve the
destination from the intent map, falling back to the configured default id
(`'default'` when absent); return null only when budget eligibility fails. -/
def createIntentBasedStrategy (config : Option IntentBasedConfig) : SpawnStrategy :=
  fun context =>
    let intentMap := (config.map IntentBasedConfig.intentMap).getD []
    let defaultId := (config.bind IntentBasedConfig.defaultSubRoutineId).getD "default"
    let eligibility := checkEligibility context.task context.runtimeState
    if eligibility.eligible = false then none
    else
      let subRoutineId :=
        match context.task.metadata.intent with
        | some i => (mapFind intentMap i).getD defaultId
        | none => defaultId
      some ⟨subRoutineId, []⟩

/-- First non-null result of the strategy list (strategies/compose.ts,
loop body of composeStrategies). -/
def composedSelect : List SpawnStrategy → StrategyContext → Option SubRoutineGroup
  | [], _ => none
  | s :: rest, context =>
    match s context with
    | some result => some result
    | none => composedSelect rest context

/-- composeStrategies (strategies/compose.ts): strategies are tried in
order, first non-null result wins; it never fails at construction time. -/
def composeStrategies (strategies : List SpawnStrategy) : SpawnStrategy :=
  fun context => composedSelect strategies context

/-- CircuitDistributor.select (circuit-distributor.ts lines 56 to 84): an
empty eligibleCandidates list short-circuits to null; otherwise the
strategy is delegated to with the envelope-bounded context. -/
def distributorSelect (strategy : SpawnStrategy) (task : Task)
    (envelope : DecisionEnvelope) (runtimeState : TaskRuntimeState)
    (pressure : PressureSignal) : Option SubRoutineGroup :=
  if envelope.eligibleCandidates.length = 0 then none
  else strategy ⟨task, envelope, runtimeState, pressure, envelope.eligibleCandidates⟩

/-- A JS envelope value as `createMainRoutine` receives it: the envelope
data together with whether `Object.isFrozen` holds of it. -/
structure JsEnvelope where
  env : DecisionEnvelope
  frozen : Bool

/-- Validated engine configuration: what the closures returned by
`createMainRoutine` capture. -/
structure EngineConfig where
  resolve : String → Option DecisionEnvelope
  defaultEnvelope : DecisionEnvelope
  strategy : SpawnStrategy

/-- createMainRoutine construction checks (main-routine.ts lines 115 to
123): a missing default envelope and a non-frozen default envelope are
fatal configuration errors raised before any admission runs. -/
def createMainRoutine (resolve : String → Option DecisionEnvelope)
    (defaultEnvelope : Option JsEnvelope) (strategy : SpawnStrategy) :
    Except String EngineConfig :=
  match defaultEnvelope with
  | none => .error "defaultEnvelope is required (RFC-7)"
  | some e =>
    if e.frozen = false then .error "defaultEnvelope must be immutable (Object.freeze)"
    else .ok ⟨resolve, e.env, strategy⟩

/-- The engine's ephemeral runtime-state store. -/
abbrev RuntimeStore := TTLMap String TaskRuntimeState

/-- getOrCreateRuntimeState (main-routine.ts lines 128 to 140): fetch the
live entry, or insert and return a zero state. -/
def getOrCreateRuntimeState (states : RuntimeStore) (now : Nat) (taskId : String) :
    TaskRuntimeState × RuntimeStore :=
  match states.get now taskId with
  | (some existing, states1) => (existing, states1)
  | (none, states1) =>
    let initial : TaskRuntimeState := ⟨0, 0, now⟩
    (initial, states1.set now taskId initial none)

/-- Mean of the three pressure components (main-routine.ts line 203). -/
def avgPressure (pressure : PressureSignal) : ℚ :=
  (pressure.memory + pressure.queueDepth + pressure.spawnSaturation) / 3

/-- The admission algorithm (main-routine.ts lines 168 to 241, the source
function `admit`): envelope resolution, lazy state creation, spawn-budget
check, retry-depth check, mask-semantics pressure gate, distributor
selection, and the dispatch-path state write-back. -/
def admitTask (cfg : EngineConfig) (states : RuntimeStore) (now : Nat)
    (task : Task) (pressure : PressureSignal) : Decision × RuntimeStore :=
  let envelope := (cfg.resolve (task.metadata.intent.getD "")).getD cfg.defaultEnvelope
  let r := getOrCreateRuntimeState states now task.id
  let runtimeState := r.1
  let states1 := r.2
  if runtimeState.spawnCount ≥ task.metadata.spawnBudget then
    (.drop .spawn_budget_exhausted runtimeState.retryDepth, states1)
  else if runtimeState.retryDepth ≥ task.metadata.maxRetryDepth then
    (.drop .retry_depth_exhausted runtimeState.retryDepth, states1)
  else if envelope.allowDrop = true ∧ avgPressure pressure > 0.9 then
    (.drop .pressure_exceeded runtimeState.retryDepth, states1)
  else
    match distributorSelect cfg.strategy task envelope runtimeState pressure with
    | none => (.drop .spawn_budget_exhausted runtimeState.retryDepth, states1)
    | some _group =>
      let updated : TaskRuntimeState :=
        { runtimeState with
          spawnCount := runtimeState.spawnCount + 1
          lastAttemptAt := now }
      (.dispatch, states1.set now task.id updated none)

/-- signalRetry (main-routine.ts lines 243 to 249): increment retryDepth of
a live entry and store it back; absent or expired entries are untouched. -/
def signalRetry (states : RuntimeStore) (now : Nat) (taskId : String) : RuntimeStore :=
  match states.get now taskId with
  | (some state, states1) =>
    states1.set now taskId { state with retryDepth := state.retryDepth + 1 } none
  | (none, states1) => states1

/-- getRuntimeState (main-routine.ts lines 251 to 253): the observable
lookup result. -/
def getRuntimeState (states : RuntimeStore) (now : Nat) (taskId : String) :
    Option TaskRuntimeState :=
  (states.get now taskId).1

/-- N successive admissions of the same task at a fixed time against a fixed
pressure snapshot. -/
def iterateAdmit (cfg : EngineConfig) (now : Nat) (task : Task)
    (pressure : PressureSignal) : Nat → RuntimeStore → RuntimeStore
  | 0, states => states
  | n + 1, states =>
    (admitTask cfg (iterateAdmit cfg now task pressure n states) now task pressure).2

/-- Half-life in milliseconds (forgetting-curve.ts line 10). -/
noncomputable def HALF_LIFE_MS : ℝ := 5 * 60 * 1000

/-- Decay constant lambda (forgetting-curve.ts line 13). -/
noncomputable def LAMBDA : ℝ := Real.log 2 / HALF_LIFE_MS

/-- decayWeight (forgetting-curve.ts lines 23 to 28): negative elapsed time
returns weight 1, otherwise exponential decay. -/
noncomputable def decayWeight (elapsedMs : ℝ) : ℝ :=
  if elapsedMs < 0 then 1 else Real.exp (-(LAMBDA * elapsedMs))

/-- timeToWeight (forgetting-curve.ts lines 38 to 46); the JS `Infinity`
returned for non-positive target weights is the top element of the
extended reals. -/
noncomputable def timeToWeight (targetWeight : ℝ) : EReal :=
  if targetWeight ≤ 0 then ⊤
  else if targetWeight ≥ 1 then 0
  else (((-Real.log targetWeight) / LAMBDA : ℝ) : EReal)

/-- Concrete fixture: an envelope allowing drop with one eligible candidate. -/
def envA : DecisionEnvelope := ⟨"envA", true, true, true, true, ["a"]⟩

/-- Concrete fixture: an envelope forbidding drop with one eligible candidate. -/
def envNoDrop : DecisionEnvelope := ⟨"envNoDrop", false, true, true, true, ["a"]⟩

/-- Concrete fixture: intent strategy with empty intent map and default id
`'default'`, as in the quick-start wrapper. -/
def intentDefault : SpawnStrategy := createIntentBasedStrategy (some ⟨[], some "default"⟩)

/-- Concrete fixture: engine configuration resolving no intent, with the
drop-allowing default envelope. -/
def cfgA : EngineConfig := ⟨fun _ => none, envA, intentDefault⟩

/-- Concrete fixture: engine configuration with the drop-forbidding default
envelope. -/
def cfgNoDrop : EngineConfig := ⟨fun _ => none, envNoDrop, intentDefault⟩

/-- Concrete fixture: a task with spawn budget 2 and max retry depth 1. -/
def taskT : Task := ⟨"t", ⟨none, none, 2, 1, 0⟩⟩

/-- Concrete fixture: the store as the engine constructs it (default TTL five
minutes, default capacity 10000). -/
def emptyStore : RuntimeStore := TTLMap.emptyMap String TaskRuntimeState 300000 10000

/-- Concrete fixture: all three pressure components exactly 0.9. -/
def pressure09 : PressureSignal := ⟨0.9, 0.9, 0.9, 0⟩

/-- Concrete fixture: all three pressure components at the maximum 1. -/
def pressureMax : PressureSignal := ⟨1, 1, 1, 0⟩

/-- Concrete fixture: zero pressure. -/
def pressureZero : PressureSignal := ⟨0, 0, 0, 0⟩

/-- Concrete fixture: task A with spawn budget 1. -/
def taskA1 : Task := ⟨"A", ⟨none, none, 1, 1, 0⟩⟩

/-- Concrete fixture: task B with spawn budget 1. -/
def taskB1 : Task := ⟨"B", ⟨none, none, 1, 1, 0⟩⟩

/-- Concrete fixture: a capacity-1 store holding task A's state after one
dispatched admission. -/
def tinyStoreAfterA : RuntimeStore :=
  (admitTask cfgNoDrop (TTLMap.emptyMap String TaskRuntimeState 300000 1) 0 taskA1
    pressureZero).2

theorem HALF_LIFE_MS_pos : (0 : ℝ) < HALF_LIFE_MS := by
  unfold HALF_LIFE_MS; norm_num

theorem LAMBDA_pos : (0 : ℝ) < LAMBDA := by
  unfold LAMBDA
  exact div_pos (Real.log_pos (by norm_num)) HALF_LIFE_MS_pos

/-- C5: for every valid task the admission function returns normally (it is
a total function) and its result is the dispatch variant or the drop
variant; the retry and escalate variants of the Decision type are never
produced by admission. -/
theorem admit_total_dispatch_or_drop (cfg : EngineConfig) (states : RuntimeStore)
    (now : Nat) (task : Task) (pressure : PressureSignal) :
    (admitTask cfg states now task pressure).1 = Decision.dispatch ∨
      ∃ reason depth,
        (admitTask cfg states now task pressure).1 = Decision.drop reason depth := by
  unfold admitTask
  dsimp only
  split
  · exact Or.inr ⟨_, _, rfl⟩
  · split
    · exact Or.inr ⟨_, _, rfl⟩
    · split
      · exact Or.inr ⟨_, _, rfl⟩
      · split
        · exact Or.inr ⟨_, _, rfl⟩
        · exact Or.inl rfl

/-- C6: the forgetting curve satisfies its normative formula: weight 1 at
elapsed time 0, weight one half at one half-life, strict monotone decrease
on non-negative elapsed times, clamp to 1 for negative elapsed times, and
timeToWeight is the exact inverse on non-negative times, with value 0 for
weights at least 1 and plus infinity for non-positive weights. -/
theorem forgetting_curve_normative :
    decayWeight 0 = 1 ∧
    decayWeight HALF_LIFE_MS = 1 / 2 ∧
    (∀ s t : ℝ, 0 ≤ s → s < t → decayWeight t < decayWeight s) ∧
    (∀ t : ℝ, t < 0 → decayWeight t = 1) ∧
    (∀ t : ℝ, 0 ≤ t → timeToWeight (decayWeight t) = ((t : ℝ) : EReal)) ∧
    (∀ w : ℝ, 1 ≤ w → timeToWeight w = 0) ∧
    (∀ w : ℝ, w ≤ 0 → timeToWeight w = ⊤) := by
  have hH : (HALF_LIFE_MS : ℝ) ≠ 0 := ne_of_gt HALF_LIFE_MS_pos
  have hL : (LAMBDA : ℝ) ≠ 0 := ne_of_gt LAMBDA_pos
  refine ⟨?_, ?_, ?_, ?_, ?_, ?_, ?_⟩
  · rw [decayWeight, if_neg (lt_irrefl 0)]
    simp
  · rw [decayWeight, if_neg (not_lt.mpr (le_of_lt HALF_LIFE_MS_pos))]
    rw [LAMBDA, div_mul_cancel₀ _ hH, Real.exp_neg, Real.exp_log (by norm_num)]
    norm_num
  · intro s t hs hst
    rw [decayWeight, if_neg (not_lt.mpr (le_trans hs (le_of_lt hst))),
      decayWeight, if_neg (not_lt.mpr hs)]
    exact Real.exp_lt_exp.mpr (by
      have := mul_lt_mul_of_pos_left hst LAMBDA_pos
      linarith)
  · intro t ht
    rw [decayWeight, if_pos ht]
  · intro t ht
    rw [decayWeight, if_neg (not_lt.mpr ht)]
    rcases eq_or_lt_of_le ht with h0 | h0
    · rw [timeToWeight, if_neg (not_le.mpr (Real.exp_pos _)),
        if_pos (by rw [← h0]; simp)]
      rw [← h0]
      simp
    · have hlt1 : Real.exp (-(LAMBDA * t)) < 1 := by
        rw [Real.exp_lt_one_iff]
        have : 0 < LAMBDA * t := mul_pos LAMBDA_pos h0
        linarith
      rw [timeToWeight, if_neg (not_le.mpr (Real.exp_pos _)),
        if_neg (not_le.mpr hlt1)]
      rw [Real.log_exp, neg_neg, mul_div_cancel_left₀ _ hL]
  · intro w hw
    rw [timeToWeight, if_neg (not_le.mpr (lt_of_lt_of_le one_pos hw)),
      if_pos hw]
  · intro w hw
    rw [timeToWeight, if_pos hw]

/-- The decision component of admitTask as a pure case analysis over the
looked-up runtime state. -/
theorem admitTask_decision (cfg : EngineConfig) (states : RuntimeStore) (now : Nat)
    (task : Task) (pressure : PressureSignal) :
    (admitTask cfg states now task pressure).1 =
      (let envelope := (cfg.resolve (task.metadata.intent.getD "")).getD cfg.defaultEnvelope
       let rs := (getOrCreateRuntimeState states now task.id).1
       if rs.spawnCount ≥ task.metadata.spawnBudget then
         Decision.drop .spawn_budget_exhausted rs.retryDepth
       else if rs.retryDepth ≥ task.metadata.maxRetryDepth then
         Decision.drop .retry_depth_exhausted rs.retryDepth
       else if envelope.allowDrop = true ∧ avgPressure pressure > 0.9 then
         Decision.drop .pressure_exceeded rs.retryDepth
       else
         match distributorSelect cfg.strategy task envelope rs pressure with
         | none => Decision.drop .spawn_budget_exhausted rs.retryDepth
         | some _ => Decision.dispatch) := by
  unfold admitTask
  dsimp only
  split
  · rfl
  · split
    · rfl
    · split
      · rfl
      · split <;> rfl

/-- C3 counterexample: with allowDrop true, all three pressure components
exactly 0.9 (so the average pressure is exactly 0.9, satisfying the
claim's at-least-0.9 hypothesis) and budgets allowing, admission
dispatches instead of dropping with pressure_exceeded: the source gate
fires only for average pressure strictly greater than 0.9. -/
theorem pressure_boundary_counterexample :
    avgPressure pressure09 ≥ 0.9 ∧
    envA.allowDrop = true ∧
    (admitTask cfgA emptyStore 0 taskT pressure09).1 = Decision.dispatch := by
  refine ⟨by norm_num [avgPressure, pressure09], rfl, ?_⟩
  rw [admitTask_decision]
  norm_num [getOrCreateRuntimeState, TTLMap.get, TTLMap.set, mapFind, mapHas, mapSet,
    TTLMap.evictOldest, oldestScan, avgPressure, distributorSelect, intentDefault,
    createIntentBasedStrategy, checkEligibility, envA, taskT, emptyStore, pressure09,
    cfgA, TTLMap.emptyMap]

/-- C3 (amended): pressure-drop gating uses mask semantics with a strict
threshold: when the resolved envelope has allowDrop false, admission never
returns drop with reason pressure_exceeded, and under satisfied budgets
and successful selection it dispatches at any pressure whatsoever; when
allowDrop is true and the average pressure is strictly greater than 0.9,
admission with satisfied budgets drops with pressure_exceeded. -/
theorem pressure_mask_semantics (cfg : EngineConfig) (states : RuntimeStore)
    (now : Nat) (task : Task) (pressure : PressureSignal)
    (envelope : DecisionEnvelope) (rs : TaskRuntimeState)
    (henv : (cfg.resolve (task.metadata.intent.getD "")).getD cfg.defaultEnvelope = envelope)
    (hrs : (getOrCreateRuntimeState states now task.id).1 = rs) :
    (envelope.allowDrop = false →
      ∀ depth, (admitTask cfg states now task pressure).1 ≠
        Decision.drop DropReason.pressure_exceeded depth) ∧
    (envelope.allowDrop = false →
      rs.spawnCount < task.metadata.spawnBudget →
      rs.retryDepth < task.metadata.maxRetryDepth →
      (distributorSelect cfg.strategy task envelope rs pressure).isSome = true →
      (admitTask cfg states now task pressure).1 = Decision.dispatch) ∧
    (envelope.allowDrop = true → avgPressure pressure > 0.9 →
      rs.spawnCount < task.metadata.spawnBudget →
      rs.retryDepth < task.metadata.maxRetryDepth →
      (admitTask cfg states now task pressure).1 =
        Decision.drop DropReason.pressure_exceeded rs.retryDepth) := by
  rw [admitTask_decision]
  dsimp only
  rw [henv, hrs]
  refine ⟨?_, ?_, ?_⟩
  · intro hmask depth
    split
    · simp
    · split
      · simp
      · split
        · rename_i hgate
          rw [hmask] at hgate
          simp at hgate
        · split <;> simp
  · intro hmask hspawn hretry hsel
    rw [if_neg (not_le.mpr hspawn), if_neg (not_le.mpr hretry),
      if_neg (by rw [hmask]; simp)]
    rcases Option.isSome_iff_exists.mp hsel with ⟨g, hg⟩
    rw [hg]
  · intro hmask hpr hspawn hretry
    rw [if_neg (not_le.mpr hspawn), if_neg (not_le.mpr hretry),
      if_pos ⟨hmask, hpr⟩]

/-- C3 witness: the amended mask semantics at concrete inputs: with the
drop-allowing envelope, budgets allowing and maximal pressure (average 1,
strictly above 0.9), admission drops with pressure_exceeded. -/
theorem pressure_mask_semantics_witness :
    (admitTask cfgA emptyStore 0 taskT pressureMax).1 =
      Decision.drop DropReason.pressure_exceeded 0 :=
  (pressure_mask_semantics cfgA emptyStore 0 taskT pressureMax envA ⟨0, 0, 0⟩
      rfl rfl).2.2 rfl (by norm_num [avgPressure, pressureMax]) (by decide) (by decide)

/-- C4: evaluation at the failing input: with the non-empty eligible set
consisting only of destination "a" (so the empty-set short-circuit does
not apply) and the intent-based strategy configured with an empty intent
map and default id "default", the distributor returns a group whose
primary destination id "default" is not an element of
envelope.eligibleCandidates: no filtering beyond the empty-set
short-circuit is applied. -/
theorem intent_strategy_escapes_envelope :
    distributorSelect intentDefault taskT envA ⟨0, 0, 0⟩ pressureZero =
      some ⟨"default", []⟩ ∧
    ¬ ("default" ∈ envA.eligibleCandidates) := by
  exact ⟨rfl, by decide⟩

/-- C8 counterexample: composing an empty strategy list raises no
configuration error: engine construction with it succeeds, the composed
strategy never selects, and the failure surfaces only at admission time,
as a drop with the catch-all reason spawn_budget_exhausted. -/
theorem empty_strategy_no_construction_error :
    (createMainRoutine (fun _ => none) (some ⟨envA, true⟩)
        (composeStrategies [])).isOk = true ∧
    composeStrategies [] ⟨taskT, envA, ⟨0, 0, 0⟩, pressureZero, envA.eligibleCandidates⟩ =
      none ∧
    (admitTask ⟨fun _ => none, envA, composeStrategies []⟩ emptyStore 0 taskT
        pressureZero).1 =
      Decision.drop DropReason.spawn_budget_exhausted 0 := by
  refine ⟨rfl, rfl, ?_⟩
  rw [admitTask_decision]
  norm_num [getOrCreateRuntimeState, TTLMap.get, TTLMap.set, mapFind, mapHas, mapSet,
    TTLMap.evictOldest, oldestScan, avgPressure, distributorSelect, composeStrategies,
    composedSelect, envA, taskT, emptyStore, pressureZero, TTLMap.emptyMap]

/-- C8 (amended): construction fails fast, before any admission runs, for a
missing default envelope and for a non-frozen default envelope; an empty
strategy composition, however, is accepted at construction (no error) and
yields a strategy that never selects, so it surfaces only at admission
time. -/
theorem construction_fails_fast (resolve : String → Option DecisionEnvelope)
    (strategy : SpawnStrategy) :
    createMainRoutine resolve none strategy =
      Except.error "defaultEnvelope is required (RFC-7)" ∧
    (∀ e : JsEnvelope, e.frozen = false →
      createMainRoutine resolve (some e) strategy =
        Except.error "defaultEnvelope must be immutable (Object.freeze)") ∧
    (∀ e : JsEnvelope, e.frozen = true →
      (createMainRoutine resolve (some e) strategy).isOk = true) ∧
    (∀ context, composeStrategies [] context = none) := by
  refine ⟨rfl, ?_, ?_, fun _ => rfl⟩
  · intro e he
    simp only [createMainRoutine]
    rw [if_pos he]
  · intro e he
    simp [createMainRoutine, he, Except.isOk, Except.toBool]

theorem mapFind_mapSet_self {K V : Type} [DecidableEq K] (l : List (K × V)) (k : K) (v : V) :
    mapFind (mapSet l k v) k = some v := by
  induction l with
  | nil => simp [mapSet, mapFind]
  | cons hd tl ih =>
    obtain ⟨k0, v0⟩ := hd
    by_cases h : k0 = k
    · simp [mapSet, mapFind, h]
    · simp [mapSet, mapFind, h, ih]

theorem mapFind_mapSet_ne {K V : Type} [DecidableEq K] (l : List (K × V)) (k k' : K) (v : V)
    (h : k' ≠ k) : mapFind (mapSet l k v) k' = mapFind l k' := by
  have hks : k ≠ k' := Ne.symm h
  induction l with
  | nil => simp [mapSet, mapFind, hks]
  | cons hd tl ih =>
    obtain ⟨k0, v0⟩ := hd
    by_cases h0 : k0 = k
    · subst h0
      simp [mapSet, mapFind, hks]
    · simp [mapSet, mapFind, h0, ih]

theorem mapFind_mapDelete_ne {K V : Type} [DecidableEq K] (l : List (K × V)) (k k' : K)
    (h : k' ≠ k) : mapFind (mapDelete l k) k' = mapFind l k' := by
  have hks : k ≠ k' := Ne.symm h
  induction l with
  | nil => simp [mapDelete]
  | cons hd tl ih =>
    obtain ⟨k0, v0⟩ := hd
    by_cases h0 : k0 = k
    · subst h0
      simp [mapDelete, mapFind, hks]
    · simp [mapDelete, mapFind, h0, ih]

theorem mapFind_eq_none_of_not_mem {K V : Type} [DecidableEq K] (l : List (K × V)) (k : K)
    (h : k ∉ l.map Prod.fst) : mapFind l k = none := by
  induction l with
  | nil => rfl
  | cons hd tl ih =>
    obtain ⟨k0, v0⟩ := hd
    simp only [List.map_cons, List.mem_cons] at h
    push_neg at h
    have h1 : k0 ≠ k := Ne.symm h.1
    simp [mapFind, h1, ih h.2]

theorem mapFind_mapDelete_self {K V : Type} [DecidableEq K] (l : List (K × V)) (k : K)
    (h : keysNodup l) : mapFind (mapDelete l k) k = none := by
  induction l with
  | nil => rfl
  | cons hd tl ih =>
    obtain ⟨k0, v0⟩ := hd
    unfold keysNodup at h
    simp only [List.map_cons, List.nodup_cons] at h
    by_cases h0 : k0 = k
    · subst h0
      simp only [mapDelete, if_pos rfl]
      exact mapFind_eq_none_of_not_mem tl k0 h.1
    · simp only [mapDelete, if_neg h0, mapFind, if_neg h0]
      exact ih h.2

theorem mapHas_of_mem {K V : Type} [DecidableEq K] (l : List (K × V)) (k : K) (v : V)
    (h : (k, v) ∈ l) : mapHas l k = true := by
  induction l with
  | nil => simp at h
  | cons hd tl ih =>
    obtain ⟨k0, v0⟩ := hd
    rcases List.mem_cons.mp h with h0 | h0
    · cases h0
      simp [mapHas, mapFind]
    · by_cases hk : k0 = k
      · simp [mapHas, mapFind, hk]
      · simpa [mapHas, mapFind, hk] using ih h0

theorem mapFind_none_mapDelete {K V : Type} [DecidableEq K] (l : List (K × V)) (k k' : K)
    (h : mapFind l k = none) : mapFind (mapDelete l k') k = none := by
  induction l with
  | nil => rfl
  | cons hd tl ih =>
    obtain ⟨k0, v0⟩ := hd
    simp only [mapFind] at h
    by_cases h0 : k0 = k
    · simp [h0] at h
    · simp only [if_neg h0] at h
      by_cases h1 : k0 = k'
      · simp only [mapDelete, if_pos h1]
        exact h
      · simp only [mapDelete, if_neg h1, mapFind, if_neg h0]
        exact ih h

theorem mapSet_length_of_has {K V : Type} [DecidableEq K] (l : List (K × V)) (k : K) (v : V)
    (h : mapHas l k = true) : (mapSet l k v).length = l.length := by
  induction l with
  | nil => simp [mapHas, mapFind] at h
  | cons hd tl ih =>
    obtain ⟨k0, v0⟩ := hd
    by_cases h0 : k0 = k
    · simp [mapSet, h0]
    · simp only [mapHas, mapFind, if_neg h0] at h
      simp [mapSet, if_neg h0, ih h]

theorem mapSet_length_of_not_has {K V : Type} [DecidableEq K] (l : List (K × V)) (k : K)
    (v : V) (h : mapHas l k = false) : (mapSet l k v).length = l.length + 1 := by
  induction l with
  | nil => simp [mapSet]
  | cons hd tl ih =>
    obtain ⟨k0, v0⟩ := hd
    by_cases h0 : k0 = k
    · simp [mapHas, mapFind, h0] at h
    · simp only [mapHas, mapFind, if_neg h0] at h
      simp [mapSet, if_neg h0, ih h]

theorem mapDelete_length_of_has {K V : Type} [DecidableEq K] (l : List (K × V)) (k : K)
    (h : mapHas l k = true) : (mapDelete l k).length + 1 = l.length := by
  induction l with
  | nil => simp [mapHas, mapFind] at h
  | cons hd tl ih =>
    obtain ⟨k0, v0⟩ := hd
    by_cases h0 : k0 = k
    · simp [mapDelete, h0]
    · simp only [mapHas, mapFind, if_neg h0] at h
      simp [mapDelete, if_neg h0, ih h]

theorem get_eq_of_find_none {K V : Type} [DecidableEq K] (m : TTLMap K V) (now : Nat)
    (key : K) (h : mapFind m.store key = none) : m.get now key = (none, m) := by
  unfold TTLMap.get
  rw [h]

theorem get_eq_of_live {K V : Type} [DecidableEq K] (m : TTLMap K V) (now : Nat) (key : K)
    (e : TTLEntry V) (h : mapFind m.store key = some e) (hl : ¬ now > e.expiresAt) :
    m.get now key = (some e.value, m) := by
  unfold TTLMap.get
  rw [h]
  exact if_neg hl

theorem get_eq_of_expired {K V : Type} [DecidableEq K] (m : TTLMap K V) (now : Nat) (key : K)
    (e : TTLEntry V) (h : mapFind m.store key = some e) (hl : now > e.expiresAt) :
    m.get now key = (none, { m with store := mapDelete m.store key }) := by
  unfold TTLMap.get
  rw [h]
  exact if_pos hl

theorem get_live_of_fst_some {K V : Type} [DecidableEq K] (m : TTLMap K V) (now : Nat)
    (key : K) (v : V) (h : (m.get now key).1 = some v) : m.get now key = (some v, m) := by
  rcases hf : mapFind m.store key with _ | e
  · rw [get_eq_of_find_none m now key hf] at h
    simp at h
  · by_cases hl : now > e.expiresAt
    · rw [get_eq_of_expired m now key e hf hl] at h
      simp at h
    · rw [get_eq_of_live m now key e hf hl] at h ⊢
      simp at h
      rw [h]

theorem get_snd_cases {K V : Type} [DecidableEq K] (m : TTLMap K V) (now : Nat) (key : K) :
    (m.get now key).2 = m ∨
      (m.get now key).2 = { m with store := mapDelete m.store key } := by
  rcases hf : mapFind m.store key with _ | e
  · rw [get_eq_of_find_none m now key hf]
    exact Or.inl rfl
  · by_cases hl : now > e.expiresAt
    · rw [get_eq_of_expired m now key e hf hl]
      exact Or.inr rfl
    · rw [get_eq_of_live m now key e hf hl]
      exact Or.inl rfl

theorem get_snd_find_ne {K V : Type} [DecidableEq K] (m : TTLMap K V) (now : Nat)
    (key k : K) (h : k ≠ key) :
    mapFind ((m.get now key).2).store k = mapFind m.store k := by
  rcases get_snd_cases m now key with hc | hc <;> rw [hc]
  exact mapFind_mapDelete_ne m.store key k h

theorem get_snd_defaultTTL {K V : Type} [DecidableEq K] (m : TTLMap K V) (now : Nat)
    (key : K) : ((m.get now key).2).defaultTTL = m.defaultTTL := by
  rcases get_snd_cases m now key with hc | hc <;> rw [hc]

theorem get_snd_maxSize {K V : Type} [DecidableEq K] (m : TTLMap K V) (now : Nat)
    (key : K) : ((m.get now key).2).maxSize = m.maxSize := by
  rcases get_snd_cases m now key with hc | hc <;> rw [hc]

theorem evictOldest_defaultTTL {K V : Type} [DecidableEq K] (m : TTLMap K V) :
    (m.evictOldest).defaultTTL = m.defaultTTL := by
  unfold TTLMap.evictOldest
  rcases oldestScan m.store none with _ | ⟨k, e⟩ <;> rfl

theorem evictOldest_maxSize {K V : Type} [DecidableEq K] (m : TTLMap K V) :
    (m.evictOldest).maxSize = m.maxSize := by
  unfold TTLMap.evictOldest
  rcases oldestScan m.store none with _ | ⟨k, e⟩ <;> rfl

theorem set_defaultTTL {K V : Type} [DecidableEq K] (m : TTLMap K V) (now : Nat) (key : K)
    (v : V) (ttl : Option Nat) : (m.set now key v ttl).defaultTTL = m.defaultTTL := by
  unfold TTLMap.set
  dsimp only
  split
  · exact evictOldest_defaultTTL m
  · rfl

theorem set_maxSize {K V : Type} [DecidableEq K] (m : TTLMap K V) (now : Nat) (key : K)
    (v : V) (ttl : Option Nat) : (m.set now key v ttl).maxSize = m.maxSize := by
  unfold TTLMap.set
  dsimp only
  split
  · exact evictOldest_maxSize m
  · rfl

theorem set_no_evict_of_has {K V : Type} [DecidableEq K] (m : TTLMap K V) (now : Nat)
    (key : K) (v : V) (ttl : Option Nat) (h : mapHas m.store key = true) :
    m.set now key v ttl =
      { m with store := mapSet m.store key ⟨v, now + ttl.getD m.defaultTTL⟩ } := by
  unfold TTLMap.set
  dsimp only
  rw [if_neg (by simp [h])]

theorem set_no_evict_of_room {K V : Type} [DecidableEq K] (m : TTLMap K V) (now : Nat)
    (key : K) (v : V) (ttl : Option Nat) (h : m.store.length < m.maxSize) :
    m.set now key v ttl =
      { m with store := mapSet m.store key ⟨v, now + ttl.getD m.defaultTTL⟩ } := by
  unfold TTLMap.set
  dsimp only
  rw [if_neg (by simp [not_le.mpr h])]

theorem set_find_self {K V : Type} [DecidableEq K] (m : TTLMap K V) (now : Nat) (key : K)
    (v : V) (ttl : Option Nat) :
    mapFind ((m.set now key v ttl)).store key =
      some ⟨v, now + ttl.getD m.defaultTTL⟩ := by
  unfold TTLMap.set
  dsimp only
  split <;> exact mapFind_mapSet_self _ key _

/-- The oldestScan result comes from the list (or is the accumulator), is a
lower bound on every expiry in the list, and is at most the accumulator. -/
theorem oldestScan_spec {K V : Type} :
    ∀ (l : List (K × TTLEntry V)) (acc : Option (K × Nat)) (k : K) (exp : Nat),
      oldestScan l acc = some (k, exp) →
      ((∃ v, (k, ⟨v, exp⟩) ∈ l) ∨ acc = some (k, exp)) ∧
      (∀ p ∈ l, exp ≤ p.2.expiresAt) ∧
      (∀ a b, acc = some (a, b) → exp ≤ b) := by
  intro l
  induction l with
  | nil =>
    intro acc k exp h
    simp only [oldestScan] at h
    subst h
    refine ⟨Or.inr rfl, by simp, ?_⟩
    intro a b hab
    simp only [Option.some.injEq, Prod.mk.injEq] at hab
    omega
  | cons hd tl ih =>
    intro acc k exp h
    obtain ⟨k0, e0⟩ := hd
    rcases acc with _ | ⟨bk, bexp⟩
    · rw [oldestScan] at h
      obtain ⟨hmem, hmin, hacc⟩ := ih (some (k0, e0.expiresAt)) k exp h
      have hb : exp ≤ e0.expiresAt := hacc k0 e0.expiresAt rfl
      refine ⟨?_, ?_, by simp⟩
      · rcases hmem with ⟨v, hv⟩ | heq
        · exact Or.inl ⟨v, List.mem_cons_of_mem _ hv⟩
        · simp only [Option.some.injEq, Prod.mk.injEq] at heq
          exact Or.inl ⟨e0.value, by rw [heq.1, ← heq.2]; exact List.mem_cons_self _ _⟩
      · intro p hp
        rcases List.mem_cons.mp hp with hp0 | hp0
        · rw [hp0]
          exact hb
        · exact hmin p hp0
    · rw [oldestScan] at h
      by_cases hcmp : e0.expiresAt < bexp
      · rw [if_pos hcmp] at h
        obtain ⟨hmem, hmin, hacc⟩ := ih (some (k0, e0.expiresAt)) k exp h
        have hb : exp ≤ e0.expiresAt := hacc k0 e0.expiresAt rfl
        refine ⟨?_, ?_, ?_⟩
        · rcases hmem with ⟨v, hv⟩ | heq
          · exact Or.inl ⟨v, List.mem_cons_of_mem _ hv⟩
          · simp only [Option.some.injEq, Prod.mk.injEq] at heq
            exact Or.inl ⟨e0.value, by rw [heq.1, ← heq.2]; exact List.mem_cons_self _ _⟩
        · intro p hp
          rcases List.mem_cons.mp hp with hp0 | hp0
          · rw [hp0]
            exact hb
          · exact hmin p hp0
        · intro a b hab
          simp only [Option.some.injEq, Prod.mk.injEq] at hab
          omega
      · rw [if_neg hcmp] at h
        obtain ⟨hmem, hmin, hacc⟩ := ih (some (bk, bexp)) k exp h
        have hb : exp ≤ bexp := hacc bk bexp rfl
        refine ⟨?_, ?_, ?_⟩
        · rcases hmem with ⟨v, hv⟩ | heq
          · exact Or.inl ⟨v, List.mem_cons_of_mem _ hv⟩
          · exact Or.inr heq
        · intro p hp
          rcases List.mem_cons.mp hp with hp0 | hp0
          · rw [hp0]
            dsimp only
            omega
          · exact hmin p hp0
        · intro a b hab
          simp only [Option.some.injEq, Prod.mk.injEq] at hab
          omega

/-- The scan with a some accumulator always returns some result. -/
theorem oldestScan_acc_isSome {K V : Type} :
    ∀ (l : List (K × TTLEntry V)) (a : K × Nat), (oldestScan l (some a)).isSome = true := by
  intro l
  induction l with
  | nil => intro a; rfl
  | cons hd tl ih =>
    intro a
    obtain ⟨k0, e0⟩ := hd
    obtain ⟨bk, bexp⟩ := a
    rw [oldestScan]
    by_cases hcmp : e0.expiresAt < bexp
    · rw [if_pos hcmp]
      exact ih _
    · rw [if_neg hcmp]
      exact ih _

theorem oldestScan_ne_isSome {K V : Type} (l : List (K × TTLEntry V)) (h : l ≠ []) :
    (oldestScan l none).isSome = true := by
  rcases l with _ | ⟨⟨k0, e0⟩, tl⟩
  · exact absurd rfl h
  · rw [oldestScan]
    exact oldestScan_acc_isSome tl _

/-- EvictOldest on a non-empty store removes exactly one present entry whose
expiry is minimal. -/
theorem evictOldest_spec {K V : Type} [DecidableEq K] (m : TTLMap K V)
    (h : m.store ≠ []) :
    ∃ k v exp, (k, (⟨v, exp⟩ : TTLEntry V)) ∈ m.store ∧
      (∀ p ∈ m.store, exp ≤ p.2.expiresAt) ∧
      m.evictOldest = { m with store := mapDelete m.store k } := by
  rcases hs : oldestScan m.store none with _ | ⟨k, exp⟩
  · have hh := oldestScan_ne_isSome m.store h
    rw [hs] at hh
    simp at hh
  · obtain ⟨hmem, hmin, _⟩ := oldestScan_spec m.store none k exp hs
    rcases hmem with ⟨v, hv⟩ | habs
    · refine ⟨k, v, exp, hv, hmin, ?_⟩
      unfold TTLMap.evictOldest
      rw [hs]
    · exact Option.noConfusion habs

theorem evictOldest_length {K V : Type} [DecidableEq K] (m : TTLMap K V)
    (h : m.store ≠ []) :
    (m.evictOldest).store.length + 1 = m.store.length := by
  obtain ⟨k, v, exp, hmem, _, heq⟩ := evictOldest_spec m h
  rw [heq]
  exact mapDelete_length_of_has m.store k (mapHas_of_mem m.store k _ hmem)

theorem getOrCreate_fst (states : RuntimeStore) (now : Nat) (tid : String) :
    (getOrCreateRuntimeState states now tid).1 =
      ((states.get now tid).1).getD ⟨0, 0, now⟩ := by
  unfold getOrCreateRuntimeState
  rcases h : states.get now tid with ⟨v, s1⟩
  cases v <;> simp

theorem getOrCreate_eq (states : RuntimeStore) (now : Nat) (tid : String) :
    getOrCreateRuntimeState states now tid =
      (match (states.get now tid).1 with
       | some rs => (rs, (states.get now tid).2)
       | none => (⟨0, 0, now⟩, (states.get now tid).2.set now tid ⟨0, 0, now⟩ none)) := by
  unfold getOrCreateRuntimeState
  rcases hg : states.get now tid with ⟨v, s1⟩
  cases v <;> rfl

theorem getOrCreate_cases (states : RuntimeStore) (now : Nat) (tid : String) :
    (∃ rs, states.get now tid = (some rs, states) ∧
      getOrCreateRuntimeState states now tid = (rs, states)) ∨
    ((states.get now tid).1 = none ∧
      getOrCreateRuntimeState states now tid =
        (⟨0, 0, now⟩, (states.get now tid).2.set now tid ⟨0, 0, now⟩ none)) := by
  rcases hv : (states.get now tid).1 with _ | rs
  · right
    refine ⟨rfl, ?_⟩
    rw [getOrCreate_eq, hv]
  · left
    have hpair := get_live_of_fst_some states now tid rs hv
    refine ⟨rs, hpair, ?_⟩
    rw [getOrCreate_eq, hv]
    rw [hpair]

theorem getRuntimeState_set_self (m : RuntimeStore) (now : Nat) (key : String)
    (v : TaskRuntimeState) (ttl : Option Nat) :
    getRuntimeState (m.set now key v ttl) now key = some v := by
  unfold getRuntimeState
  rw [get_eq_of_live _ now key _ (set_find_self m now key v ttl) (by dsimp only; omega)]

theorem getRuntimeState_none_of_get_none (states : RuntimeStore) (now : Nat) (tid : String)
    (h : (states.get now tid).1 = none) : getRuntimeState states now tid = none := h

/-- The store component of admitTask: the state write-back happens exactly on
the dispatch path. -/
theorem admitTask_store_char (cfg : EngineConfig) (states : RuntimeStore) (now : Nat)
    (task : Task) (pressure : PressureSignal) :
    (admitTask cfg states now task pressure).2 =
      (if (admitTask cfg states now task pressure).1 = Decision.dispatch then
        (getOrCreateRuntimeState states now task.id).2.set now task.id
          ⟨(getOrCreateRuntimeState states now task.id).1.spawnCount + 1,
           (getOrCreateRuntimeState states now task.id).1.retryDepth, now⟩ none
      else (getOrCreateRuntimeState states now task.id).2) := by
  conv_lhs => unfold admitTask
  conv_rhs => unfold admitTask
  dsimp only
  split
  · rw [if_neg (by simp)]
  · split
    · rw [if_neg (by simp)]
    · split
      · rw [if_neg (by simp)]
      · split
        · rw [if_neg (by simp)]
        · rw [if_pos rfl]

/-- The intent-based strategy selects whenever budget eligibility passes. -/
theorem intent_strategy_selects (config : Option IntentBasedConfig)
    (context : StrategyContext)
    (h1 : context.runtimeState.spawnCount < context.task.metadata.spawnBudget)
    (h2 : context.runtimeState.retryDepth < context.task.metadata.maxRetryDepth) :
    (createIntentBasedStrategy config context).isSome = true := by
  unfold createIntentBasedStrategy
  dsimp only
  rw [checkEligibility, if_neg (not_le.mpr h1), if_neg (not_le.mpr h2)]
  simp

/-- The distributor with an intent-based strategy selects whenever the
eligible-candidate list is non-empty and budget eligibility passes. -/
theorem distributor_intent_selects (config : Option IntentBasedConfig) (task : Task)
    (envelope : DecisionEnvelope) (rs : TaskRuntimeState) (pressure : PressureSignal)
    (h0 : envelope.eligibleCandidates.length ≠ 0)
    (h1 : rs.spawnCount < task.metadata.spawnBudget)
    (h2 : rs.retryDepth < task.metadata.maxRetryDepth) :
    (distributorSelect (createIntentBasedStrategy config) task envelope rs
      pressure).isSome = true := by
  unfold distributorSelect
  rw [if_neg h0]
  exact intent_strategy_selects config ⟨task, envelope, rs, pressure, envelope.eligibleCandidates⟩ h1 h2

theorem set_empty (ttl maxSize now : Nat) (key : String) (v : TaskRuntimeState)
    (tt : Option Nat) :
    (TTLMap.emptyMap String TaskRuntimeState ttl maxSize).set now key v tt =
      ⟨[(key, ⟨v, now + tt.getD ttl⟩)], ttl, maxSize⟩ := by
  unfold TTLMap.set TTLMap.emptyMap TTLMap.evictOldest
  dsimp only
  split <;> rfl

theorem getOrCreate_empty (ttl maxSize now : Nat) (tid : String) :
    getOrCreateRuntimeState (TTLMap.emptyMap String TaskRuntimeState ttl maxSize) now tid =
      (⟨0, 0, now⟩, ⟨[(tid, ⟨⟨0, 0, now⟩, now + ttl⟩)], ttl, maxSize⟩) := by
  rw [getOrCreate_eq]
  rw [get_eq_of_find_none (TTLMap.emptyMap String TaskRuntimeState ttl maxSize) now tid rfl]
  dsimp only
  rw [set_empty]
  rfl

theorem singleton_find (tid : String) (e : TTLEntry TaskRuntimeState)
    (ttl maxSize : Nat) :
    mapFind ((⟨[(tid, e)], ttl, maxSize⟩ : RuntimeStore)).store tid = some e := by
  simp [mapFind]

theorem getOrCreate_singleton (ttl maxSize now c lat : Nat) (tid : String) :
    getOrCreateRuntimeState (⟨[(tid, ⟨⟨c, 0, lat⟩, now + ttl⟩)], ttl, maxSize⟩ : RuntimeStore)
        now tid =
      (⟨c, 0, lat⟩, ⟨[(tid, ⟨⟨c, 0, lat⟩, now + ttl⟩)], ttl, maxSize⟩) := by
  rw [getOrCreate_eq]
  rw [get_eq_of_live _ now tid ⟨⟨c, 0, lat⟩, now + ttl⟩ (by simp [mapFind]) (by dsimp only; omega)]

theorem singleton_set (ttl maxSize now : Nat) (tid : String)
    (e : TTLEntry TaskRuntimeState) (v : TaskRuntimeState) (tt : Option Nat) :
    ((⟨[(tid, e)], ttl, maxSize⟩ : RuntimeStore)).set now tid v tt =
      ⟨[(tid, ⟨v, now + tt.getD ttl⟩)], ttl, maxSize⟩ := by
  rw [set_no_evict_of_has _ now tid v tt (by simp [mapHas, mapFind])]
  dsimp only
  simp [mapSet]

theorem admit_on_empty (cfg : EngineConfig) (task : Task) (pressure : PressureSignal)
    (now ttl maxSize : Nat) (envelope : DecisionEnvelope)
    (henv : (cfg.resolve (task.metadata.intent.getD "")).getD cfg.defaultEnvelope = envelope)
    (hretry : 0 < task.metadata.maxRetryDepth)
    (hpress : ¬ (envelope.allowDrop = true ∧ avgPressure pressure > 0.9))
    (hsel : ∀ rs : TaskRuntimeState, rs.spawnCount < task.metadata.spawnBudget →
      rs.retryDepth < task.metadata.maxRetryDepth →
      (distributorSelect cfg.strategy task envelope rs pressure).isSome = true) :
    (admitTask cfg (TTLMap.emptyMap String TaskRuntimeState ttl maxSize) now task
        pressure).2 =
      ⟨[(task.id, ⟨⟨min 1 task.metadata.spawnBudget, 0, now⟩, now + ttl⟩)], ttl,
        maxSize⟩ := by
  unfold admitTask
  dsimp only
  rw [henv, getOrCreate_empty]
  dsimp only
  by_cases hb : task.metadata.spawnBudget = 0
  · rw [if_pos (by omega)]
    simp [hb]
  · rw [if_neg (by omega), if_neg (by omega), if_neg hpress]
    obtain ⟨g, hg⟩ := Option.isSome_iff_exists.mp
      (hsel ⟨0, 0, now⟩ (by dsimp only; omega) (by dsimp only; omega))
    rw [hg]
    dsimp only
    rw [singleton_set]
    have hm : min 1 task.metadata.spawnBudget = 1 := by omega
    rw [hm]
    rfl

theorem admit_on_singleton (cfg : EngineConfig) (task : Task) (pressure : PressureSignal)
    (now ttl maxSize c : Nat) (envelope : DecisionEnvelope)
    (henv : (cfg.resolve (task.metadata.intent.getD "")).getD cfg.defaultEnvelope = envelope)
    (hretry : 0 < task.metadata.maxRetryDepth)
    (hpress : ¬ (envelope.allowDrop = true ∧ avgPressure pressure > 0.9))
    (hsel : ∀ rs : TaskRuntimeState, rs.spawnCount < task.metadata.spawnBudget →
      rs.retryDepth < task.metadata.maxRetryDepth →
      (distributorSelect cfg.strategy task envelope rs pressure).isSome = true) :
    (admitTask cfg (⟨[(task.id, ⟨⟨c, 0, now⟩, now + ttl⟩)], ttl, maxSize⟩ : RuntimeStore)
        now task pressure).2 =
      ⟨[(task.id,
          ⟨⟨if c < task.metadata.spawnBudget then c + 1 else c, 0, now⟩, now + ttl⟩)],
        ttl, maxSize⟩ := by
  unfold admitTask
  dsimp only
  rw [henv, getOrCreate_singleton]
  dsimp only
  by_cases hb : c < task.metadata.spawnBudget
  · rw [if_neg (by omega), if_neg (by omega), if_neg hpress]
    obtain ⟨g, hg⟩ := Option.isSome_iff_exists.mp
      (hsel ⟨c, 0, now⟩ (by dsimp only; omega) (by dsimp only; omega))
    rw [hg]
    dsimp only
    rw [singleton_set]
    rw [if_pos hb]
    rfl
  · rw [if_pos (by omega)]
    rw [if_neg hb]

theorem iterate_admit_singleton (cfg : EngineConfig) (task : Task)
    (pressure : PressureSignal) (now ttl maxSize : Nat) (envelope : DecisionEnvelope)
    (henv : (cfg.resolve (task.metadata.intent.getD "")).getD cfg.defaultEnvelope = envelope)
    (hretry : 0 < task.metadata.maxRetryDepth)
    (hpress : ¬ (envelope.allowDrop = true ∧ avgPressure pressure > 0.9))
    (hsel : ∀ rs : TaskRuntimeState, rs.spawnCount < task.metadata.spawnBudget →
      rs.retryDepth < task.metadata.maxRetryDepth →
      (distributorSelect cfg.strategy task envelope rs pressure).isSome = true) :
    ∀ N : Nat,
      iterateAdmit cfg now task pressure (N + 1)
          (TTLMap.emptyMap String TaskRuntimeState ttl maxSize) =
        ⟨[(task.id, ⟨⟨min (N + 1) task.metadata.spawnBudget, 0, now⟩, now + ttl⟩)],
          ttl, maxSize⟩ := by
  intro N
  induction N with
  | zero =>
    rw [iterateAdmit, iterateAdmit]
    exact admit_on_empty cfg task pressure now ttl maxSize envelope henv hretry hpress hsel
  | succ n ih =>
    rw [iterateAdmit, ih]
    rw [admit_on_singleton cfg task pressure now ttl maxSize _ envelope henv hretry hpress hsel]
    by_cases hb : min (n + 1) task.metadata.spawnBudget < task.metadata.spawnBudget
    · rw [if_pos hb]
      have : min (n + 1) task.metadata.spawnBudget + 1 =
          min (n + 1 + 1) task.metadata.spawnBudget := by omega
      rw [this]
    · rw [if_neg hb]
      have : min (n + 1) task.metadata.spawnBudget =
          min (n + 1 + 1) task.metadata.spawnBudget := by omega
      rw [this]

/-- C1: spawn-budget accounting: under a configuration whose other gates
pass (positive max retry depth, no pressure-induced drop, a strategy that
selects whenever budgets allow), the stored spawnCount after N admissions
of a task equals min(N, spawnBudget); unconditionally, admission changes
the stored spawnCount view exactly by one on the dispatch path and not at
all on any drop path; and whenever the live stored spawnCount has reached
spawnBudget, admission returns drop spawn_budget_exhausted and leaves the
store untouched, for as long as the entry lives. -/
theorem spawn_budget_accounting (cfg : EngineConfig) (task : Task)
    (pressure : PressureSignal) (now ttl maxSize : Nat) (envelope : DecisionEnvelope)
    (henv : (cfg.resolve (task.metadata.intent.getD "")).getD cfg.defaultEnvelope = envelope)
    (hretry : 0 < task.metadata.maxRetryDepth)
    (hpress : ¬ (envelope.allowDrop = true ∧ avgPressure pressure > 0.9))
    (hsel : ∀ rs : TaskRuntimeState, rs.spawnCount < task.metadata.spawnBudget →
      rs.retryDepth < task.metadata.maxRetryDepth →
      (distributorSelect cfg.strategy task envelope rs pressure).isSome = true) :
    (∀ N : Nat,
      ((getRuntimeState (iterateAdmit cfg now task pressure N
            (TTLMap.emptyMap String TaskRuntimeState ttl maxSize)) now task.id).map
          TaskRuntimeState.spawnCount).getD 0 = min N task.metadata.spawnBudget) ∧
    (∀ states : RuntimeStore,
      ((getRuntimeState (admitTask cfg states now task pressure).2 now task.id).map
          TaskRuntimeState.spawnCount).getD 0 =
        (if (admitTask cfg states now task pressure).1 = Decision.dispatch then
          ((getRuntimeState states now task.id).map TaskRuntimeState.spawnCount).getD 0 + 1
        else
          ((getRuntimeState states now task.id).map TaskRuntimeState.spawnCount).getD 0)) ∧
    (∀ (states : RuntimeStore) (rs : TaskRuntimeState),
      getRuntimeState states now task.id = some rs →
      rs.spawnCount ≥ task.metadata.spawnBudget →
      admitTask cfg states now task pressure =
        (Decision.drop DropReason.spawn_budget_exhausted rs.retryDepth, states)) := by
  refine ⟨?_, ?_, ?_⟩
  · intro N
    cases N with
    | zero => simp [iterateAdmit, getRuntimeState, TTLMap.get, TTLMap.emptyMap, mapFind]
    | succ n =>
      rw [iterate_admit_singleton cfg task pressure now ttl maxSize envelope henv hretry
        hpress hsel n]
      unfold getRuntimeState
      rw [get_eq_of_live _ now task.id
        ⟨⟨min (n + 1) task.metadata.spawnBudget, 0, now⟩, now + ttl⟩
        (by simp [mapFind]) (by dsimp only; omega)]
      simp
  · intro states
    rw [admitTask_store_char]
    by_cases hd : (admitTask cfg states now task pressure).1 = Decision.dispatch
    · rw [if_pos hd, if_pos hd, getRuntimeState_set_self]
      rw [getOrCreate_fst]
      unfold getRuntimeState
      rcases hv : (states.get now task.id).1 with _ | rs <;> simp
    · rw [if_neg hd, if_neg hd]
      rcases getOrCreate_cases states now task.id with ⟨rs, hpair, hoc⟩ | ⟨hv, hoc⟩
      · rw [hoc]
      · rw [hoc]
        dsimp only
        rw [getRuntimeState_set_self]
        unfold getRuntimeState
        rw [hv]
        simp
  · intro states rs h hge
    have hpair := get_live_of_fst_some states now task.id rs h
    have h1 : (TTLMap.get states now task.id).1 = some rs := h
    have hoc : getOrCreateRuntimeState states now task.id = (rs, states) := by
      rw [getOrCreate_eq, h1, hpair]
    unfold admitTask
    dsimp only
    rw [hoc]
    dsimp only
    rw [if_pos hge]

/-- C1 witness: three admissions of a task with spawn budget 2 under the
no-drop envelope leave a stored spawnCount of min(3, 2) = 2. -/
theorem spawn_budget_accounting_witness :
    ((getRuntimeState (iterateAdmit cfgNoDrop 0 taskT pressureZero 3
          (TTLMap.emptyMap String TaskRuntimeState 300000 10000)) 0 taskT.id).map
        TaskRuntimeState.spawnCount).getD 0 = min 3 taskT.metadata.spawnBudget :=
  (spawn_budget_accounting cfgNoDrop taskT pressureZero 0 300000 10000 envNoDrop rfl
      (by decide) (by simp [envNoDrop]) (fun rs h1 h2 =>
        distributor_intent_selects (some ⟨[], some "default"⟩) taskT envNoDrop rs
          pressureZero (by decide) h1 h2)).1 3

theorem getRuntimeState_congr (m1 m2 : RuntimeStore) (now : Nat) (j : String)
    (h : mapFind m1.store j = mapFind m2.store j) :
    getRuntimeState m1 now j = getRuntimeState m2 now j := by
  unfold getRuntimeState TTLMap.get
  rw [h]
  rcases hf : mapFind m2.store j with _ | e
  · rfl
  · dsimp only
    split <;> rfl

/-- C2: retry-depth accounting: signalRetry on a live entry increments its
retryDepth by exactly 1 (spawnCount and lastAttemptAt untouched);
signalRetry on an unknown or expired id is an observational no-op (every
getRuntimeState result is unchanged; for the expired case this relies on
the key-uniqueness invariant of a JS Map); and once a live entry's
retryDepth has reached the task's maxRetryDepth, the next admission
returns drop retry_depth_exhausted even though spawn budget remains. -/
theorem retry_signal_accounting (states : RuntimeStore) (now : Nat) (taskId : String) :
    (∀ s : TaskRuntimeState, getRuntimeState states now taskId = some s →
      getRuntimeState (signalRetry states now taskId) now taskId =
        some ⟨s.spawnCount, s.retryDepth + 1, s.lastAttemptAt⟩) ∧
    (getRuntimeState states now taskId = none → keysNodup states.store →
      ∀ j : String, getRuntimeState (signalRetry states now taskId) now j =
        getRuntimeState states now j) ∧
    (∀ (cfg : EngineConfig) (task : Task) (pressure : PressureSignal)
        (s : TaskRuntimeState), task.id = taskId →
      getRuntimeState states now taskId = some s →
      s.retryDepth ≥ task.metadata.maxRetryDepth →
      s.spawnCount < task.metadata.spawnBudget →
      (admitTask cfg states now task pressure).1 =
        Decision.drop DropReason.retry_depth_exhausted s.retryDepth) := by
  refine ⟨?_, ?_, ?_⟩
  · intro s h
    have hpair := get_live_of_fst_some states now taskId s h
    unfold signalRetry
    rw [hpair]
    exact getRuntimeState_set_self states now taskId _ none
  · intro hn hnd j
    unfold signalRetry
    rcases hf : mapFind states.store taskId with _ | e
    · rw [get_eq_of_find_none states now taskId hf]
    · by_cases hexp : now > e.expiresAt
      · rw [get_eq_of_expired states now taskId e hf hexp]
        by_cases hj : j = taskId
        · subst hj
          rw [getRuntimeState_none_of_get_none _ _ _
            (by rw [get_eq_of_find_none _ now j (mapFind_mapDelete_self states.store j hnd)]),
            hn]
        · exact getRuntimeState_congr _ states now j
            (mapFind_mapDelete_ne states.store taskId j hj)
      · have := get_eq_of_live states now taskId e hf hexp
        unfold getRuntimeState at hn
        rw [this] at hn
        simp at hn
  · intro cfg task pressure s htid h hrd hsp
    rw [← htid] at h
    have hpair := get_live_of_fst_some states now task.id s h
    have h1 : (TTLMap.get states now task.id).1 = some s := h
    have hoc : getOrCreateRuntimeState states now task.id = (s, states) := by
      rw [getOrCreate_eq, h1, hpair]
    unfold admitTask
    dsimp only
    rw [hoc]
    dsimp only
    rw [if_neg (not_le.mpr hsp), if_pos hrd]

/-- C2 witness: signalRetry on a freshly stored zero state yields retry
depth 1. -/
theorem retry_signal_accounting_witness :
    getRuntimeState (signalRetry (emptyStore.set 0 "t" ⟨0, 0, 0⟩ none) 0 "t") 0 "t" =
      some ⟨0, 1, 0⟩ :=
  (retry_signal_accounting (emptyStore.set 0 "t" ⟨0, 0, 0⟩ none) 0 "t").1 ⟨0, 0, 0⟩
    (by decide)

theorem getOrCreate_snd_defaultTTL (states : RuntimeStore) (now : Nat) (tid : String) :
    ((getOrCreateRuntimeState states now tid).2).defaultTTL = states.defaultTTL := by
  rcases getOrCreate_cases states now tid with ⟨rs, _, hoc⟩ | ⟨_, hoc⟩ <;> rw [hoc]
  rw [set_defaultTTL, get_snd_defaultTTL]

/-- C10: every write-back of runtime state re-arms the entry's TTL: a
dispatch-path admission stores the updated state with absolute expiry
now + defaultTTL (the engine's stateTTL), as does every signalRetry on a
live entry; and an entry with expiry E is readable at every time up to E
and absent afterwards, so a task's counters expire stateTTL after the
last dispatch or retry signal rather than stateTTL after creation, and
write-backs at intervals shorter than stateTTL keep the counters alive. -/
theorem ttl_rearm_on_writeback :
    (∀ (cfg : EngineConfig) (states : RuntimeStore) (now : Nat) (task : Task)
        (pressure : PressureSignal),
      (admitTask cfg states now task pressure).1 = Decision.dispatch →
      ∃ v : TaskRuntimeState,
        mapFind ((admitTask cfg states now task pressure).2).store task.id =
          some ⟨v, now + states.defaultTTL⟩) ∧
    (∀ (states : RuntimeStore) (now : Nat) (taskId : String) (s : TaskRuntimeState),
      getRuntimeState states now taskId = some s →
      mapFind (signalRetry states now taskId).store taskId =
        some ⟨⟨s.spawnCount, s.retryDepth + 1, s.lastAttemptAt⟩,
          now + states.defaultTTL⟩) ∧
    (∀ (m : RuntimeStore) (tid : String) (v : TaskRuntimeState) (exp : Nat),
      mapFind m.store tid = some ⟨v, exp⟩ →
      (∀ t : Nat, t ≤ exp → getRuntimeState m t tid = some v) ∧
      (∀ t : Nat, t > exp → getRuntimeState m t tid = none)) := by
  refine ⟨?_, ?_, ?_⟩
  · intro cfg states now task pressure hd
    rw [admitTask_store_char, if_pos hd]
    refine ⟨⟨(getOrCreateRuntimeState states now task.id).1.spawnCount + 1,
      (getOrCreateRuntimeState states now task.id).1.retryDepth, now⟩, ?_⟩
    rw [set_find_self, getOrCreate_snd_defaultTTL]
    rfl
  · intro states now taskId s h
    have hpair := get_live_of_fst_some states now taskId s h
    unfold signalRetry
    rw [hpair]
    rw [set_find_self]
    rfl
  · intro m tid v exp h
    constructor
    · intro t ht
      unfold getRuntimeState
      rw [get_eq_of_live m t tid ⟨v, exp⟩ h (by dsimp only; omega)]
    · intro t ht
      unfold getRuntimeState
      rw [get_eq_of_expired m t tid ⟨v, exp⟩ h (by dsimp only; omega)]

/-- C10 witness: a state stored at time 0 with TTL 300000 is still readable
at time 300000. -/
theorem ttl_rearm_on_writeback_witness :
    getRuntimeState (emptyStore.set 0 "t" ⟨1, 2, 3⟩ none) 300000 "t" = some ⟨1, 2, 3⟩ :=
  (ttl_rearm_on_writeback.2.2 (emptyStore.set 0 "t" ⟨1, 2, 3⟩ none) "t" ⟨1, 2, 3⟩ 300000
      (by decide)).1 300000 (by decide)

theorem mapDelete_length_le {K V : Type} [DecidableEq K] (l : List (K × V)) (k : K) :
    (mapDelete l k).length ≤ l.length := by
  induction l with
  | nil => simp [mapDelete]
  | cons hd tl ih =>
    obtain ⟨k0, v0⟩ := hd
    by_cases h0 : k0 = k
    · simp [mapDelete, h0]
    · simp only [mapDelete, if_neg h0, List.length_cons]
      omega

theorem mapHas_of_get_fst_some (m : RuntimeStore) (now : Nat) (key : String)
    (v : TaskRuntimeState) (h : (m.get now key).1 = some v) :
    mapHas m.store key = true := by
  rcases hf : mapFind m.store key with _ | e
  · rw [get_eq_of_find_none m now key hf] at h
    simp at h
  · simp [mapHas, hf]

theorem getOrCreate_snd_frame (states : RuntimeStore) (now : Nat) (tid k : String)
    (hk : k ≠ tid)
    (hcap : states.store.length ≤ states.maxSize)
    (hroom : states.store.length < states.maxSize ∨ mapHas states.store tid = true) :
    mapFind ((getOrCreateRuntimeState states now tid).2).store k =
      mapFind states.store k := by
  rcases getOrCreate_cases states now tid with ⟨rs, _, hoc⟩ | ⟨hv, hoc⟩
  · rw [hoc]
  · rw [hoc]
    dsimp only
    have hlen2 : ((states.get now tid).2).store.length < ((states.get now tid).2).maxSize := by
      rw [get_snd_maxSize]
      rcases hroom with hroom | hroom
      · rcases get_snd_cases states now tid with hc | hc <;> rw [hc]
        · exact hroom
        · dsimp only
          have := mapDelete_length_le states.store tid
          omega
      · obtain ⟨e, hf⟩ := Option.isSome_iff_exists.mp hroom
        have hexp : now > e.expiresAt := by
          by_contra hno
          have := get_eq_of_live states now tid e hf hno
          rw [this] at hv
          simp at hv
        rw [get_eq_of_expired states now tid e hf hexp]
        dsimp only
        have hdel := mapDelete_length_of_has states.store tid (by simp [mapHas, hf])
        omega
    rw [set_no_evict_of_room _ now tid ⟨0, 0, now⟩ none hlen2]
    dsimp only
    rw [mapFind_mapSet_ne _ tid k _ hk]
    exact get_snd_find_ne states now tid k hk

theorem admitTask_find_frame (cfg : EngineConfig) (states : RuntimeStore) (now : Nat)
    (taskB : Task) (pressure : PressureSignal) (k : String) (hk : k ≠ taskB.id)
    (hcap : states.store.length ≤ states.maxSize)
    (hroom : states.store.length < states.maxSize ∨
      mapHas states.store taskB.id = true) :
    mapFind ((admitTask cfg states now taskB pressure).2).store k =
      mapFind states.store k := by
  rw [admitTask_store_char]
  by_cases hd : (admitTask cfg states now taskB pressure).1 = Decision.dispatch
  · rw [if_pos hd]
    have h1 : mapHas ((getOrCreateRuntimeState states now taskB.id).2).store taskB.id =
        true := by
      rcases getOrCreate_cases states now taskB.id with ⟨rs, hpair, hoc⟩ | ⟨hv, hoc⟩
      · rw [hoc]
        exact mapHas_of_get_fst_some states now taskB.id rs (by rw [hpair])
      · rw [hoc]
        dsimp only
        simp [mapHas, set_find_self]
    rw [set_no_evict_of_has _ now taskB.id _ none h1]
    dsimp only
    rw [mapFind_mapSet_ne _ taskB.id k _ hk]
    exact getOrCreate_snd_frame states now taskB.id k hk hcap hroom
  · rw [if_neg hd]
    exact getOrCreate_snd_frame states now taskB.id k hk hcap hroom

theorem admit_decision_congr (cfg : EngineConfig) (s1 s2 : RuntimeStore) (now : Nat)
    (task : Task) (pressure : PressureSignal)
    (h : (s1.get now task.id).1 = (s2.get now task.id).1) :
    (admitTask cfg s1 now task pressure).1 = (admitTask cfg s2 now task pressure).1 := by
  rw [admitTask_decision, admitTask_decision]
  dsimp only
  rw [getOrCreate_fst, getOrCreate_fst, h]

/-- C9 (amended): admission decisions are computed per task in isolation as
long as no capacity eviction touches the other task's entry: for distinct
ids A and B, when the store is below capacity or B is already tracked, an
admission of B leaves A's stored runtime state unchanged and does not
change the decision any task with id A would receive. -/
theorem task_isolation (cfg : EngineConfig) (states : RuntimeStore) (now : Nat)
    (taskB : Task) (pressure : PressureSignal) (idA : String)
    (hne : idA ≠ taskB.id)
    (hcap : states.store.length ≤ states.maxSize)
    (hroom : states.store.length < states.maxSize ∨
      mapHas states.store taskB.id = true) :
    (getRuntimeState (admitTask cfg states now taskB pressure).2 now idA =
      getRuntimeState states now idA) ∧
    (∀ (taskA : Task) (pA : PressureSignal), taskA.id = idA →
      (admitTask cfg (admitTask cfg states now taskB pressure).2 now taskA pA).1 =
        (admitTask cfg states now taskA pA).1) := by
  have hframe := admitTask_find_frame cfg states now taskB pressure idA hne hcap hroom
  constructor
  · exact getRuntimeState_congr _ _ now idA hframe
  · intro taskA pA hid
    apply admit_decision_congr
    rw [hid]
    exact getRuntimeState_congr _ _ now idA hframe

/-- C9 witness: below capacity, admitting task B leaves task A's stored
state untouched. -/
theorem task_isolation_witness :
    getRuntimeState (admitTask cfgNoDrop (emptyStore.set 0 "A" ⟨1, 0, 0⟩ none) 0 taskB1
        pressureZero).2 0 "A" =
      getRuntimeState (emptyStore.set 0 "A" ⟨1, 0, 0⟩ none) 0 "A" :=
  (task_isolation cfgNoDrop (emptyStore.set 0 "A" ⟨1, 0, 0⟩ none) 0 taskB1 pressureZero
      "A" (by decide) (by decide) (Or.inl (by decide))).1

/-- C9 counterexample: at capacity 1, admitting new task B evicts task A's
runtime counters and changes the decision A receives. -/
theorem cross_task_eviction_counterexample :
    (admitTask cfgNoDrop tinyStoreAfterA 0 taskA1 pressureZero).1 =
        Decision.drop DropReason.spawn_budget_exhausted 0 ∧
    getRuntimeState tinyStoreAfterA 0 "A" = some ⟨1, 0, 0⟩ ∧
    getRuntimeState (admitTask cfgNoDrop tinyStoreAfterA 0 taskB1 pressureZero).2 0
        "A" = none ∧
    (admitTask cfgNoDrop (admitTask cfgNoDrop tinyStoreAfterA 0 taskB1 pressureZero).2
        0 taskA1 pressureZero).1 = Decision.dispatch := by
  refine ⟨by decide, by decide, by decide, by decide⟩

theorem applyOp_maxSize {K V : Type} [DecidableEq K] (m : TTLMap K V) (op : TTLOp K V) :
    (applyOp m op).maxSize = m.maxSize := by
  cases op with
  | get now key => exact get_snd_maxSize m now key
  | set now key value ttl => exact set_maxSize m now key value ttl
  | delete key => rfl
  | clear => rfl
  | prune now => rfl

theorem set_length_le {K V : Type} [DecidableEq K] (m : TTLMap K V) (now : Nat) (key : K)
    (v : V) (ttl : Option Nat) (h1 : 1 ≤ m.maxSize)
    (h : m.store.length ≤ m.maxSize) :
    (m.set now key v ttl).store.length ≤ m.maxSize := by
  by_cases hh : mapHas m.store key = true
  · rw [set_no_evict_of_has m now key v ttl hh]
    dsimp only
    rw [mapSet_length_of_has m.store key _ hh]
    exact h
  · have hh' : mapHas m.store key = false := by
      cases hhas : mapHas m.store key
      · rfl
      · exact absurd hhas hh
    by_cases hlen : m.store.length < m.maxSize
    · rw [set_no_evict_of_room m now key v ttl hlen]
      dsimp only
      rw [mapSet_length_of_not_has m.store key _ hh']
      omega
    · have hlen' : m.store.length = m.maxSize := by omega
      have hne : m.store ≠ [] := by
        intro hemp
        rw [hemp] at hlen'
        simp at hlen'
        omega
      unfold TTLMap.set
      dsimp only
      rw [if_pos ⟨by omega, by simp [hh']⟩]
      have hnotin : mapHas (m.evictOldest).store key = false := by
        obtain ⟨kmin, vmin, exp, _, _, heq⟩ := evictOldest_spec m hne
        rw [heq]
        dsimp only
        simp only [mapHas] at hh' ⊢
        rw [mapFind_none_mapDelete m.store key kmin (by
          rcases hf : mapFind m.store key with _ | e
          · rfl
          · rw [hf] at hh'
            simp at hh')]
        rfl
      rw [mapSet_length_of_not_has _ key _ hnotin]
      have := evictOldest_length m hne
      omega

theorem applyOp_length {K V : Type} [DecidableEq K] (m : TTLMap K V) (op : TTLOp K V)
    (h1 : 1 ≤ m.maxSize) (h : m.store.length ≤ m.maxSize) :
    (applyOp m op).store.length ≤ m.maxSize := by
  cases op with
  | get now key =>
    rcases get_snd_cases m now key with hc | hc <;> rw [applyOp, hc]
    · exact h
    · dsimp only
      have := mapDelete_length_le m.store key
      omega
  | set now key value ttl => exact set_length_le m now key value ttl h1 h
  | delete key =>
    have := mapDelete_length_le m.store key
    unfold applyOp TTLMap.deleteKey
    dsimp only
    omega
  | clear => simp [applyOp, TTLMap.clearAll]
  | prune now =>
    unfold applyOp TTLMap.prune
    dsimp only
    have := List.length_filter_le (fun p => decide (now ≤ p.2.expiresAt)) m.store
    omega

theorem applyOps_length {K V : Type} [DecidableEq K] :
    ∀ (ops : List (TTLOp K V)) (m : TTLMap K V), 1 ≤ m.maxSize →
      m.store.length ≤ m.maxSize → (applyOps m ops).store.length ≤ m.maxSize := by
  intro ops
  induction ops with
  | nil => intro m _ h; exact h
  | cons op rest ih =>
    intro m h1 h
    rw [applyOps]
    have hmax := applyOp_maxSize m op
    have := ih (applyOp m op) (by omega) (by rw [hmax]; exact applyOp_length m op h1 h)
    calc (applyOps (applyOp m op) rest).store.length
        ≤ (applyOp m op).maxSize := this
      _ = m.maxSize := hmax

/-- C7 counterexample: with configured capacity 0, a single set leaves the
store with one entry, exceeding the capacity (evicting from an empty store
is a no-op, and the insert is unconditional). -/
theorem capacity_zero_counterexample :
    ((TTLMap.emptyMap String Nat 100 0).set 0 "k" 5 none).store.length = 1 ∧
    ((TTLMap.emptyMap String Nat 100 0).set 0 "k" 5 none).maxSize = 0 := by
  exact ⟨rfl, rfl⟩

/-- C7 (amended): for every sequence of TTLMap operations on a store of
configured capacity at least 1, the store's size never exceeds the
capacity; a set on a new key while at capacity evicts an entry with the
smallest expiry timestamp first (never an entry with a later expiry), the
write being exactly evict-then-insert; and a set on an existing key never
triggers eviction and leaves the size unchanged. -/
theorem ttlmap_capacity_eviction :
    (∀ (K V : Type) (_ : DecidableEq K) (ops : List (TTLOp K V)) (ttl maxSize : Nat),
      1 ≤ maxSize →
      (applyOps (TTLMap.emptyMap K V ttl maxSize) ops).store.length ≤ maxSize) ∧
    (∀ (K V : Type) (_ : DecidableEq K) (m : TTLMap K V) (now : Nat) (key : K) (v : V)
        (ttl : Option Nat),
      1 ≤ m.maxSize → m.store.length ≥ m.maxSize → mapHas m.store key = false →
      ∃ kmin vmin exp, (kmin, (⟨vmin, exp⟩ : TTLEntry V)) ∈ m.store ∧
        (∀ p ∈ m.store, exp ≤ p.2.expiresAt) ∧
        m.evictOldest = { m with store := mapDelete m.store kmin } ∧
        m.set now key v ttl =
          { m.evictOldest with
            store := mapSet (m.evictOldest).store key
              ⟨v, now + ttl.getD m.defaultTTL⟩ }) ∧
    (∀ (K V : Type) (_ : DecidableEq K) (m : TTLMap K V) (now : Nat) (key : K) (v : V)
        (ttl : Option Nat),
      mapHas m.store key = true →
      m.set now key v ttl =
        { m with store := mapSet m.store key ⟨v, now + ttl.getD m.defaultTTL⟩ } ∧
      (m.set now key v ttl).store.length = m.store.length) := by
  refine ⟨?_, ?_, ?_⟩
  · intro K V inst ops ttl maxSize h1
    exact applyOps_length ops (TTLMap.emptyMap K V ttl maxSize) h1 (by simp [TTLMap.emptyMap])
  · intro K V inst m now key v ttl h1 hcap hh
    have hne : m.store ≠ [] := by
      intro hemp
      rw [hemp] at hcap
      simp at hcap
      omega
    obtain ⟨kmin, vmin, exp, hmem, hmin, heq⟩ := evictOldest_spec m hne
    refine ⟨kmin, vmin, exp, hmem, hmin, heq, ?_⟩
    unfold TTLMap.set
    dsimp only
    rw [if_pos ⟨hcap, by simp [hh]⟩]
  · intro K V inst m now key v ttl hh
    refine ⟨set_no_evict_of_has m now key v ttl hh, ?_⟩
    rw [set_no_evict_of_has m now key v ttl hh]
    dsimp only
    exact mapSet_length_of_has m.store key _ hh

/-- C7 witness: two inserts into a capacity-1 store leave at most one
entry. -/
theorem ttlmap_capacity_eviction_witness :
    (applyOps (TTLMap.emptyMap String Nat 10 1)
        [TTLOp.set 0 "a" 1 none, TTLOp.set 0 "b" 2 none]).store.length ≤ 1 :=
  ttlmap_capacity_eviction.1 String Nat instDecidableEqString
    [TTLOp.set 0 "a" 1 none, TTLOp.set 0 "b" 2 none] 10 1 (by decide)

end Maestro
